import Mathlib

/-!
Verification development for the random-matrix / random-state generator module
(`quimb/gen/rand.py`).

The Python module is shallowly embedded as follows.

* Randomness: every call of `np.random.randn` / `np.random.rand` /
  `np.random.randint` is modelled by reading an explicit stream of draws
  (`g : ℕ → K`, `rInt : ℕ`, ...) passed to the embedded function, so each
  embedded function is a deterministic function of its draw streams.
* Numbers: matrix entries live in an arbitrary field `K` with a star
  operation (instantiated with `ℂ` where a claim needs genuinely complex
  facts, and with `ℚ` in concrete witnesses).  Densities are exact
  rationals.  The float operation `x ** y` of numpy is modelled by a
  collaborator parameter `fpow : ℚ → ℚ → K` (resp. `fpowQ : ℚ → ℚ → ℚ` when
  the result is used as a density), and `np.abs` on complex scalars by a
  collaborator `absF : K → K`.
* External collaborators that are part of the surrounding system but not of
  this module (QR decomposition, `rdmul`, `ptr`, `kron`, `nmlz`, the type
  tagging constructor `qu`) are either taken as function parameters
  (`qrF`, `nmlzF`) or modelled from the specification (marked
  `Modelled from the spec:` in their doc comments).
* Python exceptions raised while an operation runs (TypeError from
  arithmetic on `None`, ValueError raised by `scipy.sparse.random` for an
  out-of-range density or by `np.random.randint` on an empty range) are
  modelled with `Except PyErr`.
-/

open Matrix

/-- Errors observable by a caller of the module: a Python `TypeError`
(arithmetic on `None`), `ValueError` (raised by a numeric collaborator) or
`ZeroDivisionError` (the default-density expression `10/d` at `d = 0`). -/
inductive PyErr : Type
  | typeError : PyErr
  | valueError : PyErr
  | zeroDivisionError : PyErr
deriving DecidableEq, Repr

section RawSampler

variable {K : Type} [Field K]

/-- One complex Gaussian draw for entry `(i, j)` of a `d × d` matrix:
`np.random.randn(d, d) + 1.0j * np.random.randn(d, d)` read off a real draw
stream `g`, with `im` the imaginary unit of `K`. -/
def gauss (g : ℕ → K) (im : K) (d : ℕ) (i j : ℕ) : K :=
  g (2 * (d * i + j)) + im * g (2 * (d * i + j) + 1)

/-- The density value actually used by `rand_matrix` for scaling: the dense
branch sets `density = 1.0`; the sparse branch keeps a supplied density and
defaults a missing one to `min(0.5, 10/d)`.  This is the value-level
resolution consumed by the matrix value `rand_matrixM`; the rational
division `10/d` here is total, so the Python `ZeroDivisionError` of the
default expression at `d = 0` is modelled separately by `defaultDensity`
inside `rand_matrix`, and this value is only consulted on non-error paths
(`d ≥ 1` or a supplied density). -/
def resolveDensity (d : ℕ) (sparse : Bool) (density : Option ℚ) : ℚ :=
  if sparse then density.getD (min (1/2) (10 / (d : ℚ))) else 1

/-- The Python default-density expression `min(0.5, 10/d)` as evaluated
lazily at `rand.py:17` (and at the corresponding lines of `rand_herm` and
`rand_pos`): true division of the int literal `10` by `d` raises
`ZeroDivisionError` when `d = 0`. -/
def defaultDensity (d : ℕ) : Except PyErr ℚ :=
  if d = 0 then .error .zeroDivisionError
  else .ok (min (1/2) (10 / (d : ℚ)))

/-- The matrix value produced by `rand_matrix(d, scaled, sparse, density)`
(`quimb/gen/rand.py`).  `pat i j = true` marks the non-zero positions chosen
by `sp.random` in sparse mode; the dense branch fills every entry.  When
`scaled` every entry is divided by `(2 * d * density) ** 0.5`, with the
resolved density of `resolveDensity`. -/
def rand_matrixM (d : ℕ) (scaled sparse : Bool) (density : Option ℚ)
    (pat : ℕ → ℕ → Bool) (g : ℕ → K) (im : K) (fpow : ℚ → ℚ → K) :
    Matrix (Fin d) (Fin d) K :=
  let ρ : ℚ := resolveDensity d sparse density
  let raw : Matrix (Fin d) (Fin d) K :=
    if sparse then
      Matrix.of fun i j => if pat i.val j.val then gauss g im d i.val j.val else 0
    else
      Matrix.of fun i j => gauss g im d i.val j.val
  if scaled then Matrix.of (fun i j => raw i j / fpow (2 * d * ρ) (1/2)) else raw

/-- Full behaviour of `rand_matrix` including the errors its body can
surface, all raised lazily from inside the sparse branch: the default
density expression `min(0.5, 10/d)` raises `ZeroDivisionError` when `d = 0`
and no density is supplied, and `scipy.sparse.random` rejects a density
outside `[0, 1]` with a `ValueError`.  The function itself performs no
eager validation of `d` or `density`; in dense mode no error is possible
at all. -/
def rand_matrix (d : ℕ) (scaled sparse : Bool) (density : Option ℚ)
    (pat : ℕ → ℕ → Bool) (g : ℕ → K) (im : K) (fpow : ℚ → ℚ → K) :
    Except PyErr (Matrix (Fin d) (Fin d) K) :=
  if sparse = true then
    match (match density with
           | none => defaultDensity d
           | some ρ => .ok ρ : Except PyErr ℚ) with
    | .error e => .error e
    | .ok ρ =>
        if ρ < 0 ∨ 1 < ρ then .error .valueError
        else .ok (rand_matrixM d scaled sparse density pat g im fpow)
  else .ok (rand_matrixM d scaled sparse density pat g im fpow)

lemma rand_matrix_sparse_some_ok (d : ℕ) (scaled : Bool) (ρ : ℚ)
    (pat : ℕ → ℕ → Bool) (g : ℕ → K) (im : K) (fpow : ℚ → ℚ → K)
    (h : ¬ (ρ < 0 ∨ 1 < ρ)) :
    rand_matrix d scaled true (some ρ) pat g im fpow
      = .ok (rand_matrixM d scaled true (some ρ) pat g im fpow) := by
  show (if ρ < 0 ∨ 1 < ρ then (.error .valueError : Except PyErr _)
        else .ok (rand_matrixM d scaled true (some ρ) pat g im fpow))
      = .ok (rand_matrixM d scaled true (some ρ) pat g im fpow)
  exact if_neg h

lemma rand_matrix_sparse_none_ok (d : ℕ) (scaled : Bool)
    (pat : ℕ → ℕ → Bool) (g : ℕ → K) (im : K) (fpow : ℚ → ℚ → K)
    (hd : d ≠ 0) (h : ¬ (min (1/2) (10 / (d : ℚ)) < 0 ∨ 1 < min (1/2) (10 / (d : ℚ)))) :
    rand_matrix d scaled true none pat g im fpow
      = .ok (rand_matrixM d scaled true none pat g im fpow) := by
  have hdd : defaultDensity d = .ok (min (1/2) (10 / (d : ℚ))) := by
    unfold defaultDensity
    exact if_neg hd
  unfold rand_matrix
  rw [hdd]
  show (if min (1/2) (10 / (d : ℚ)) < 0 ∨ 1 < min (1/2) (10 / (d : ℚ))
        then (.error .valueError : Except PyErr _)
        else .ok (rand_matrixM d scaled true none pat g im fpow))
      = .ok (rand_matrixM d scaled true none pat g im fpow)
  exact if_neg h

end RawSampler

section ClaimC2

variable {K : Type} [Field K]

/-- C2: for every `d ≥ 1` and density in `(0, 1]`, when `rand_matrix` is
called with `scaled = true` every sampled entry is the corresponding
unscaled entry divided by `(2 * d * density) ** 0.5`, where the density used
is the resolved one; in dense mode that resolved density is `1.0`, and in
sparse mode it is the supplied one. -/
theorem rand_matrix_scaled_division (d : ℕ) (hd : 1 ≤ d) (ρ : ℚ)
    (hρ0 : 0 < ρ) (hρ1 : ρ ≤ 1) (sparse : Bool) (pat : ℕ → ℕ → Bool)
    (g : ℕ → K) (im : K) (fpow : ℚ → ℚ → K) :
    (∀ i j, rand_matrixM d true sparse (some ρ) pat g im fpow i j
      = rand_matrixM d false sparse (some ρ) pat g im fpow i j
          / fpow (2 * d * resolveDensity d sparse (some ρ)) (1/2))
    ∧ resolveDensity d false (some ρ) = 1
    ∧ resolveDensity d true (some ρ) = ρ := by
  refine ⟨fun i j => ?_, rfl, rfl⟩
  cases sparse <;> rfl

/-- Witness for C2 at `d = 1`, `ρ = 1`, dense mode, over `ℚ`. -/
theorem rand_matrix_scaled_division_witness :
    (∀ i j, rand_matrixM (K := ℚ) 1 true false (some 1)
        (fun _ _ => true) (fun _ => 0) 0 (fun _ _ => 1) i j
      = rand_matrixM (K := ℚ) 1 false false (some 1)
        (fun _ _ => true) (fun _ => 0) 0 (fun _ _ => 1) i j
          / (fun _ _ => (1 : ℚ)) (2 * 1 * resolveDensity 1 false (some 1)) (1/2))
    ∧ resolveDensity 1 false (some 1) = 1
    ∧ resolveDensity 1 true (some 1) = 1 :=
  rand_matrix_scaled_division 1 (by decide) 1 (by decide) (by decide)
    false (fun _ _ => true) (fun _ => 0) 0 (fun _ _ => 1)

end ClaimC2

section StructuredBuilders

variable {K : Type} [Field K] [StarRing K]

/-- Embedding of `rand_herm(d, sparse, density)`.  The default density is
resolved only when `density is None and sparse` (that lazy resolution itself
raises `ZeroDivisionError` at `d = 0`, via `defaultDensity`); the (possibly
still absent) density is then divided by 2 — on `None` this Python division
raises a `TypeError` before `rand_matrix` is ever called.  The body computes
`A = rand_matrix(..., density/2) / 2**1.5` and returns `A + Aᴴ`. -/
def rand_herm (d : ℕ) (sparse : Bool) (density : Option ℚ)
    (pat : ℕ → ℕ → Bool) (g : ℕ → K) (im : K) (fpow : ℚ → ℚ → K) :
    Except PyErr (Matrix (Fin d) (Fin d) K) :=
  match (if density.isNone && sparse then (defaultDensity d).map some
         else .ok density : Except PyErr (Option ℚ)) with
  | .error e => .error e
  | .ok none => .error .typeError
  | .ok (some x) =>
      (rand_matrix d true sparse (some (x / 2)) pat g im fpow).map fun M =>
        let A := Matrix.of fun i j => M i j / fpow 2 (3/2)
        A + Aᴴ

/-- Embedding of `rand_pos(d, sparse, density)`.  Same default-density
resolution as `rand_herm` (including its lazy `ZeroDivisionError` at
`d = 0`); the density is combined as `(density/d) ** 0.5` (a `TypeError` on
`None`), then `P = rand_matrix(...)/2` and `P · Pᴴ` is returned. -/
def rand_pos (d : ℕ) (sparse : Bool) (density : Option ℚ)
    (pat : ℕ → ℕ → Bool) (g : ℕ → K) (im : K) (fpow : ℚ → ℚ → K)
    (fpowQ : ℚ → ℚ → ℚ) :
    Except PyErr (Matrix (Fin d) (Fin d) K) :=
  match (if density.isNone && sparse then (defaultDensity d).map some
         else .ok density : Except PyErr (Option ℚ)) with
  | .error e => .error e
  | .ok none => .error .typeError
  | .ok (some x) =>
      (rand_matrix d true sparse (some (fpowQ (x / (d : ℚ)) (1/2))) pat g im fpow).map
        fun M =>
          let P := Matrix.of fun i j => M i j / 2
          P * Pᴴ

/-- The matrix described by the specification's words for the Hermitian
builder: `(M + M*) / 2^{1.5}` where `M` is a raw scaled ensemble matrix
sampled with half the target density. -/
def herm_spec_val (d : ℕ) (sparse : Bool) (x : ℚ)
    (pat : ℕ → ℕ → Bool) (g : ℕ → K) (im : K) (fpow : ℚ → ℚ → K) :
    Matrix (Fin d) (Fin d) K :=
  Matrix.of fun i j =>
    (rand_matrixM d true sparse (some (x / 2)) pat g im fpow
      + (rand_matrixM d true sparse (some (x / 2)) pat g im fpow)ᴴ) i j
    / fpow 2 (3/2)

end StructuredBuilders

section ClaimC3

variable {K : Type} [Field K] [StarRing K]

/-- C3: for `d ≥ 2` and a supplied target density in `(0, 1]`,
`rand_herm(d, sparse, density)` returns `(M + M*) / 2^{1.5}` where `M` is
the raw scaled ensemble matrix sampled with half the target density, and the
returned matrix equals its own conjugate transpose.  The only fact assumed
about the float collaborator is that `2 ** 1.5` is a real (star-fixed)
scalar. -/
theorem rand_herm_spec (d : ℕ) (hd : 2 ≤ d) (sparse : Bool) (x : ℚ)
    (hx0 : 0 < x) (hx1 : x ≤ 1) (pat : ℕ → ℕ → Bool) (g : ℕ → K) (im : K)
    (fpow : ℚ → ℚ → K) (hstar : star (fpow 2 (3/2)) = fpow 2 (3/2)) :
    rand_herm d sparse (some x) pat g im fpow
      = .ok (herm_spec_val d sparse x pat g im fpow)
    ∧ (herm_spec_val d sparse x pat g im fpow)ᴴ
      = herm_spec_val d sparse x pat g im fpow := by
  have hbody :
      (Matrix.of fun i j =>
          rand_matrixM (K := K) d true sparse (some (x / 2)) pat g im fpow i j
            / fpow 2 (3/2))
        + (Matrix.of fun i j =>
          rand_matrixM (K := K) d true sparse (some (x / 2)) pat g im fpow i j
            / fpow 2 (3/2))ᴴ
      = herm_spec_val d sparse x pat g im fpow := by
    ext i j
    simp only [herm_spec_val, Matrix.add_apply, Matrix.conjTranspose_apply,
      Matrix.of_apply, star_div₀, hstar, star_star]
    rw [add_div]
  constructor
  · cases sparse with
    | false =>
        refine Eq.trans ?_ (congrArg Except.ok hbody)
        rfl
    | true =>
        have h2 : rand_matrix (K := K) d true true (some (x / 2)) pat g im fpow
            = .ok (rand_matrixM d true true (some (x / 2)) pat g im fpow) := by
          refine rand_matrix_sparse_some_ok d true (x / 2) pat g im fpow ?_
          rintro (h | h)
          · linarith
          · linarith
        have step : rand_herm d true (some x) pat g im fpow
            = (rand_matrix (K := K) d true true (some (x / 2)) pat g im fpow).map
                (fun M =>
                  (Matrix.of fun i j => M i j / fpow 2 (3/2))
                    + (Matrix.of fun i j => M i j / fpow 2 (3/2))ᴴ) := rfl
        rw [step, h2]
        exact congrArg Except.ok hbody
  · ext i j
    simp only [herm_spec_val, Matrix.conjTranspose_apply, Matrix.add_apply,
      Matrix.of_apply, star_div₀, hstar, star_add, star_star]
    rw [add_comm]

/-- Witness for C3: `d = 2`, `x = 1`, dense mode, over `ℚ` (where `star` is
the identity). -/
theorem rand_herm_spec_witness :
    rand_herm (K := ℚ) 2 false (some 1)
        (fun _ _ => true) (fun _ => 0) 0 (fun _ _ => 1)
      = .ok (herm_spec_val 2 false 1 (fun _ _ => true) (fun _ => 0) 0 (fun _ _ => 1))
    ∧ (herm_spec_val (K := ℚ) 2 false 1
        (fun _ _ => true) (fun _ => 0) 0 (fun _ _ => 1))ᴴ
      = herm_spec_val 2 false 1 (fun _ _ => true) (fun _ => 0) 0 (fun _ _ => 1) :=
  rand_herm_spec 2 (by decide) false 1 (by decide) (by decide)
    (fun _ _ => true) (fun _ => 0) 0 (fun _ _ => 1) rfl

end ClaimC3

section ClaimC10

variable {K : Type} [Field K] [StarRing K]

/-- C10: calling `rand_herm(d)` or `rand_pos(d)` with `sparse = false` and no
density fails with a `TypeError` before any matrix is produced: the default
`None` is only resolved to a number when `sparse` is true, yet it is then
divided by 2 (resp. divided by `d` under a square root). -/
theorem rand_herm_rand_pos_dense_default_typeError (d : ℕ)
    (pat : ℕ → ℕ → Bool) (g : ℕ → K) (im : K) (fpow : ℚ → ℚ → K)
    (fpowQ : ℚ → ℚ → ℚ) :
    rand_herm d false none pat g im fpow = .error .typeError
    ∧ rand_pos d false none pat g im fpow fpowQ = .error .typeError :=
  ⟨rfl, rfl⟩

end ClaimC10

section ClaimC6

/-- C6 counterexample: `rand_matrix` does not reject invalid arguments.  At
`d = 0 < 1` it returns the (empty) matrix normally, and at `d = 1` with the
invalid density `2 ∉ (0, 1]` in dense mode it also returns a matrix
normally — no error is reported in either case. -/
theorem rand_matrix_no_validation_counterexample :
    rand_matrix (K := ℚ) 0 true false none
        (fun _ _ => true) (fun _ => 0) 0 (fun _ _ => 1)
      = .ok (rand_matrixM 0 true false none
        (fun _ _ => true) (fun _ => 0) 0 (fun _ _ => 1))
    ∧ rand_matrix (K := ℚ) 1 true false (some 2)
        (fun _ _ => true) (fun _ => 0) 0 (fun _ _ => 1)
      = .ok (rand_matrixM 1 true false (some 2)
        (fun _ _ => true) (fun _ => 0) 0 (fun _ _ => 1)) :=
  ⟨rfl, rfl⟩

variable {K : Type} [Field K]

/-- C6 amended: `rand_matrix` performs no eager validation of its
arguments.  In dense mode the density argument is ignored outright (any two
densities give the same result, and a matrix is always returned, even for
`d = 0` or a density outside `(0, 1]`); errors surface only lazily from the
sparse branch's collaborator arithmetic — a supplied density outside
`[0, 1]` is rejected by the sparse allocation collaborator with a
`ValueError`, and with no density supplied the default expression
`min(0.5, 10/d)` raises a `ZeroDivisionError` at `d = 0`. -/
theorem rand_matrix_no_eager_validation (d : ℕ) (scaled : Bool)
    (dens dens' : Option ℚ) (pat : ℕ → ℕ → Bool) (g : ℕ → K) (im : K)
    (fpow : ℚ → ℚ → K) :
    rand_matrix d scaled false dens pat g im fpow
        = rand_matrix d scaled false dens' pat g im fpow
    ∧ rand_matrix d scaled false dens pat g im fpow
        = .ok (rand_matrixM d scaled false dens pat g im fpow)
    ∧ (∀ ρ : ℚ, (ρ < 0 ∨ 1 < ρ) →
        rand_matrix d scaled true (some ρ) pat g im fpow = .error .valueError)
    ∧ rand_matrix 0 scaled true none pat g im fpow = .error .zeroDivisionError := by
  refine ⟨rfl, rfl, fun ρ h => ?_, rfl⟩
  show (if ρ < 0 ∨ 1 < ρ then (.error .valueError : Except PyErr _)
        else .ok (rand_matrixM d scaled true (some ρ) pat g im fpow))
      = .error .valueError
  exact if_pos h

/-- Witness for C6's amended statement: a sparse call with density `2`
surfaces the collaborator's `ValueError`, and a sparse call at `d = 0` with
no density surfaces the default expression's `ZeroDivisionError` (while
dense calls never error). -/
theorem rand_matrix_no_eager_validation_witness :
    rand_matrix (K := ℚ) 3 true true (some 2)
        (fun _ _ => true) (fun _ => 0) 0 (fun _ _ => 1)
      = .error .valueError
    ∧ rand_matrix (K := ℚ) 0 true true none
        (fun _ _ => true) (fun _ => 0) 0 (fun _ _ => 1)
      = .error .zeroDivisionError :=
  ⟨(rand_matrix_no_eager_validation 3 true (some 2) (some 2)
      (fun _ _ => true) (fun _ => 0) 0 (fun _ _ => 1)).2.2.1 2
    (Or.inr (by norm_num)),
   (rand_matrix_no_eager_validation 0 true (some 2) (some 2)
      (fun _ _ => true) (fun _ => 0) 0 (fun _ _ => 1)).2.2.2⟩

end ClaimC6

section HaarSampler

variable {K : Type} [Field K]

/-- Modelled from the spec: the "right-multiply by a diagonal" primitive
(`rdmul`, imported from the accelerator module): `rdmul Q λ = Q · diag(λ)`. -/
def rdmul {d : ℕ} (q : Matrix (Fin d) (Fin d) K) (lam : Fin d → K) :
    Matrix (Fin d) (Fin d) K :=
  Matrix.of fun i j => q i j * lam j

/-- Embedding of `rand_uni(d)`: QR-decompose `rand_matrix(d)` (the dense
default call, with `scaled = True`, which never errors — so the matrix value
`rand_matrixM` is taken directly), read off the diagonal of `R`, divide it
elementwise by its absolute value (`absF` models `np.abs`), and right
multiply `Q` by the resulting phase vector.  `qrF` models `np.linalg.qr`. -/
def rand_uni (d : ℕ)
    (qrF : Matrix (Fin d) (Fin d) K →
      Matrix (Fin d) (Fin d) K × Matrix (Fin d) (Fin d) K)
    (absF : K → K) (g : ℕ → K) (im : K) (fpow : ℚ → ℚ → K) :
    Matrix (Fin d) (Fin d) K :=
  rdmul (qrF (rand_matrixM d true false none (fun _ _ => true) g im fpow)).1
    (fun i =>
      (qrF (rand_matrixM d true false none (fun _ _ => true) g im fpow)).2 i i
        / absF ((qrF (rand_matrixM d true false none (fun _ _ => true) g im fpow)).2 i i))

/-- The Haar-sampling pipeline exactly as the specification words it: sample
a raw UNSCALED dense ensemble matrix `M`, QR-decompose it, build the phase
correction from the diagonal of its `R` factor, and right-multiply its `Q`
factor by that correction. -/
def rand_uni_spec_pipeline (d : ℕ)
    (qrF : Matrix (Fin d) (Fin d) K →
      Matrix (Fin d) (Fin d) K × Matrix (Fin d) (Fin d) K)
    (absF : K → K) (g : ℕ → K) (im : K) (fpow : ℚ → ℚ → K) :
    Matrix (Fin d) (Fin d) K :=
  rdmul (qrF (rand_matrixM d false false none (fun _ _ => true) g im fpow)).1
    (fun i =>
      (qrF (rand_matrixM d false false none (fun _ _ => true) g im fpow)).2 i i
        / absF ((qrF (rand_matrixM d false false none (fun _ _ => true) g im fpow)).2 i i))

end HaarSampler

section ClaimC1

/-- C1: over `ℂ`, with `np.abs` instantiated as the complex modulus, the
value of `rand_uni d` coincides with the pipeline the spec describes on the
raw unscaled ensemble matrix.  The code actually QR-decomposes the SCALED
ensemble matrix; the hypotheses record what the QR collaborator guarantees:
`σ > 0` is the value of the float collaborator `(2·d·1) ** 0.5` (so the
unscaled matrix is `σ` times the scaled one — the first conclusion), and
the QR factors of the two matrices then share `Q` while the `R` factor picks
up the factor `σ`.  The phase correction `λ = diag R / |diag R|` is
unchanged by the positive factor `σ`, and each of its entries has modulus
exactly 1 wherever the diagonal entry is non-zero. -/
theorem rand_uni_matches_spec_pipeline (d : ℕ) (hd : 2 ≤ d) (g : ℕ → ℂ)
    (qrF : Matrix (Fin d) (Fin d) ℂ →
      Matrix (Fin d) (Fin d) ℂ × Matrix (Fin d) (Fin d) ℂ)
    (fpow : ℚ → ℚ → ℂ) (σ : ℝ) (hσ : 0 < σ)
    (hs : fpow (2 * d * 1) (1/2) = ((σ : ℝ) : ℂ))
    (q r : Matrix (Fin d) (Fin d) ℂ)
    (h1 : qrF (rand_matrixM d true false none (fun _ _ => true) g Complex.I fpow)
      = (q, r))
    (h2 : qrF (rand_matrixM d false false none (fun _ _ => true) g Complex.I fpow)
      = (q, ((σ : ℝ) : ℂ) • r)) :
    rand_matrixM d false false none (fun _ _ => true) g Complex.I fpow
      = ((σ : ℝ) : ℂ) • rand_matrixM d true false none (fun _ _ => true) g Complex.I fpow
    ∧ rand_uni d qrF (fun z => ((Complex.abs z : ℝ) : ℂ)) g Complex.I fpow
      = rand_uni_spec_pipeline d qrF (fun z => ((Complex.abs z : ℝ) : ℂ)) g Complex.I fpow
    ∧ ∀ i, r i i ≠ 0 →
        Complex.abs (r i i / ((Complex.abs (r i i) : ℝ) : ℂ)) = 1 := by
  have hσ0 : ((σ : ℝ) : ℂ) ≠ 0 := by
    simpa using hσ.ne'
  refine ⟨?_, ?_, fun i hi => ?_⟩
  · ext i j
    simp only [rand_matrixM, resolveDensity, Matrix.smul_apply, Matrix.of_apply,
      if_true, if_false, Bool.false_eq_true, reduceIte, hs, smul_eq_mul]
    rw [mul_div_cancel₀ _ hσ0]
  · unfold rand_uni rand_uni_spec_pipeline
    rw [h1, h2]
    refine congrArg₂ rdmul rfl (funext fun i => ?_)
    by_cases hz : r i i = 0
    · simp [hz]
    · have habs : Complex.abs (((σ : ℝ) : ℂ) * r i i)
          = σ * Complex.abs (r i i) := by
        rw [AbsoluteValue.map_mul, Complex.abs_ofReal, abs_of_pos hσ]
      simp only [Matrix.smul_apply, smul_eq_mul]
      rw [habs, Complex.ofReal_mul, mul_div_mul_left _ _ hσ0]
  · rw [map_div₀, Complex.abs_ofReal, abs_of_nonneg (Complex.abs.nonneg _),
      div_self (Complex.abs.ne_zero hi)]

/-- Witness for C1 at `d = 2` with the zero draw stream and a QR collaborator
constantly returning the zero factors. -/
theorem rand_uni_matches_spec_pipeline_witness :
    rand_matrixM 2 false false none (fun _ _ => true) (fun _ => 0) Complex.I (fun _ _ => 1)
      = ((1 : ℝ) : ℂ) • rand_matrixM 2 true false none (fun _ _ => true)
          (fun _ => 0) Complex.I (fun _ _ => 1)
    ∧ rand_uni 2 (fun _ => (0, 0)) (fun z => ((Complex.abs z : ℝ) : ℂ))
        (fun _ => 0) Complex.I (fun _ _ => 1)
      = rand_uni_spec_pipeline 2 (fun _ => (0, 0)) (fun z => ((Complex.abs z : ℝ) : ℂ))
          (fun _ => 0) Complex.I (fun _ _ => 1)
    ∧ ∀ i : Fin 2, (0 : Matrix (Fin 2) (Fin 2) ℂ) i i ≠ 0 →
        Complex.abs ((0 : Matrix (Fin 2) (Fin 2) ℂ) i i
          / ((Complex.abs ((0 : Matrix (Fin 2) (Fin 2) ℂ) i i) : ℝ) : ℂ)) = 1 :=
  rand_uni_matches_spec_pipeline 2 (by norm_num) (fun _ => 0) (fun _ => (0, 0))
    (fun _ _ => 1) 1 one_pos (by norm_num) 0 0 rfl (by simp)

end ClaimC1

section ClaimC9

/-- C9 counterexample: with a QR collaborator whose `R` factor has the exact
zero `R₀₀ = 0`, `rand_uni 2` neither reports an error nor resamples: it
returns a matrix (its first column degraded to the junk phase `0/|0| = 0`,
the exact-arithmetic stand-in for the floating-point NaN column). -/
theorem rand_uni_zero_diagonal_counterexample :
    rand_uni (K := ℚ) 2 (fun _ => (1, Matrix.of ![![0, 0], ![0, 1]]))
        (fun z => z) (fun _ => 0) 0 (fun _ _ => 1)
      = Matrix.of ![![0, 0], ![0, 1]] := by
  ext i j
  fin_cases i <;> fin_cases j <;>
    simp [rand_uni, rdmul, Matrix.one_apply]

variable {K : Type} [Field K]

/-- C9 amended: `rand_uni` has no guard for a zero diagonal entry of `R`.
Whenever the QR collaborator produces `R` with `R i i = 0`, the operation
still returns a matrix and its `i`-th column is the junk column
`Q·(0/|0|) = 0` (NaN in floating point) — no error, no resampling. -/
theorem rand_uni_zero_diagonal_junk_column (d : ℕ)
    (qrF : Matrix (Fin d) (Fin d) K →
      Matrix (Fin d) (Fin d) K × Matrix (Fin d) (Fin d) K)
    (absF : K → K) (g : ℕ → K) (im : K) (fpow : ℚ → ℚ → K)
    (q r : Matrix (Fin d) (Fin d) K)
    (h : qrF (rand_matrixM d true false none (fun _ _ => true) g im fpow) = (q, r))
    (i : Fin d) (h0 : r i i = 0) :
    ∀ j, rand_uni d qrF absF g im fpow j i = 0 := by
  intro j
  unfold rand_uni
  rw [h]
  show q j i * (r i i / absF (r i i)) = 0
  rw [h0, zero_div, mul_zero]

/-- Witness for C9's amended theorem at the concrete degenerate QR factor
used in the counterexample's configuration, at a different absolute-value
collaborator. -/
theorem rand_uni_zero_diagonal_junk_column_witness :
    rand_uni (K := ℚ) 2 (fun _ => (1, Matrix.of ![![0, 0], ![0, 1]]))
        (fun z => z + 1) (fun _ => 0) 0 (fun _ _ => 1) 1 0 = 0 :=
  rand_uni_zero_diagonal_junk_column 2 (fun _ => (1, Matrix.of ![![0, 0], ![0, 1]]))
    (fun z => z + 1) (fun _ => 0) 0 (fun _ _ => 1) 1 (Matrix.of ![![0, 0], ![0, 1]])
    rfl 0 (by decide) 1

end ClaimC9

section HaarStream

variable {K : Type} [Field K]

/-- Loop of the generator `gen_rand_haar_states(d, reps)`: at each emission
index `rep` it sets `cyc = rep % d`, resamples the cached unitary (calling
the sampler `us` with the next fresh-call index `k`) exactly when `cyc = 0`,
and yields column `cyc` of the cached unitary.  Returns the emitted columns
together with the number of sampler calls made.  `u` is the cache (unbound
in Python until the first emission assigns it). -/
def gen_rand_haar_states_go (d : ℕ) (hd : 0 < d)
    (us : ℕ → Matrix (Fin d) (Fin d) K) :
    ℕ → ℕ → ℕ → Matrix (Fin d) (Fin d) K → List (Fin d → K) × ℕ
  | 0, _, k, _ => ([], k)
  | n + 1, rep, k, u =>
      let cyc := rep % d
      let u' := if cyc = 0 then us k else u
      let k' := if cyc = 0 then k + 1 else k
      let rest := gen_rand_haar_states_go d hd us n (rep + 1) k' u'
      ((fun i => u' i ⟨cyc, Nat.mod_lt rep hd⟩) :: rest.1, rest.2)

/-- Embedding of `gen_rand_haar_states(d, reps)`: run the loop from emission
index 0 with no sampler call made yet and an arbitrary initial cache `u₀`
(the Python variable `u` is unbound before the first iteration). -/
def gen_rand_haar_states (d : ℕ) (hd : 0 < d) (reps : ℕ)
    (us : ℕ → Matrix (Fin d) (Fin d) K) (u₀ : Matrix (Fin d) (Fin d) K) :
    List (Fin d → K) × ℕ :=
  gen_rand_haar_states_go d hd us reps 0 0 u₀

lemma succ_div_mod_of_lt (d rep : ℕ) (hd : 0 < d) (h : rep % d + 1 < d) :
    (rep + 1) / d = rep / d ∧ (rep + 1) % d = rep % d + 1 := by
  have hsplit : rep + 1 = d * (rep / d) + (rep % d + 1) := by
    have := Nat.div_add_mod rep d
    omega
  constructor
  · rw [hsplit, Nat.mul_add_div hd, Nat.div_eq_of_lt h, Nat.add_zero]
  · rw [hsplit, Nat.mul_add_mod, Nat.mod_eq_of_lt h]

lemma succ_div_mod_of_eq (d rep : ℕ) (hd : 0 < d) (h : rep % d + 1 = d) :
    (rep + 1) / d = rep / d + 1 ∧ (rep + 1) % d = 0 := by
  have hsplit : rep + 1 = d * (rep / d) + d := by
    have := Nat.div_add_mod rep d
    omega
  constructor
  · rw [hsplit, Nat.mul_add_div hd, Nat.div_self hd]
  · rw [hsplit, Nat.mul_add_mod, Nat.mod_self]

lemma countP_range_shift (d rep n : ℕ) :
    ((List.range (n + 1)).countP fun t => (rep + t) % d == 0)
      = (if rep % d = 0 then 1 else 0)
        + ((List.range n).countP fun t => (rep + 1 + t) % d == 0) := by
  rw [List.range_succ_eq_map, List.countP_cons, List.countP_map]
  have hf : ((fun t => (rep + t) % d == 0) ∘ Nat.succ)
      = fun t => (rep + 1 + t) % d == 0 := by
    funext t
    have : rep + Nat.succ t = rep + 1 + t := by omega
    rw [Function.comp_apply, this]
  rw [hf, Nat.add_zero]
  by_cases h : rep % d = 0
  · simp [h, Nat.add_comm]
  · simp [h]

lemma countP_range_mod_eq_ceil (d : ℕ) (hd : 0 < d) :
    ∀ n, ((List.range n).countP fun t => t % d == 0) = (n + d - 1) / d := by
  intro n
  induction n with
  | zero =>
      have hlt : d - 1 < d := by omega
      simp [Nat.div_eq_of_lt hlt]
  | succ n ih =>
      rw [List.range_succ, List.countP_append, ih]
      have hrhs : n + 1 + d - 1 = n + d := by omega
      rw [hrhs, Nat.add_div_right n hd]
      have hmod := Nat.div_add_mod n d
      by_cases h : n % d = 0
      · have h1 : n + d - 1 = d * (n / d) + (d - 1) := by omega
        have h2 : (n + d - 1) / d = n / d := by
          rw [h1, Nat.mul_add_div hd,
            Nat.div_eq_of_lt (show d - 1 < d by omega), Nat.add_zero]
        simp [h, h2]
      · have hlt : n % d < d := Nat.mod_lt n hd
        have h1 : n + d - 1 = d * (n / d + 1) + (n % d - 1) := by
          rw [Nat.mul_succ]
          omega
        have h2 : (n + d - 1) / d = n / d + 1 := by
          rw [h1, Nat.mul_add_div hd,
            Nat.div_eq_of_lt (show n % d - 1 < d by omega), Nat.add_zero]
        simp [h, h2]

/-- Invariant proof for the generator loop: starting at emission index `rep`
with `k` sampler calls already made and a cache that is correct unless a
resample is due, the emitted columns and final call count are as claimed. -/
lemma gen_rand_haar_states_go_spec (d : ℕ) (hd : 0 < d)
    (us : ℕ → Matrix (Fin d) (Fin d) K) :
    ∀ (n rep k : ℕ) (u : Matrix (Fin d) (Fin d) K),
      ((rep % d = 0 ∧ k = rep / d)
        ∨ (rep % d ≠ 0 ∧ k = rep / d + 1 ∧ u = us (rep / d))) →
      (gen_rand_haar_states_go d hd us n rep k u).1
          = (List.range n).map (fun t => fun i =>
              us ((rep + t) / d) i ⟨(rep + t) % d, Nat.mod_lt _ hd⟩)
        ∧ (gen_rand_haar_states_go d hd us n rep k u).2
          = k + ((List.range n).countP fun t => (rep + t) % d == 0) := by
  intro n
  induction n with
  | zero =>
      intro rep k u _
      exact ⟨rfl, by simp [gen_rand_haar_states_go]⟩
  | succ n ih =>
      intro rep k u hinv
      have hu' : (if rep % d = 0 then us k else u) = us (rep / d) := by
        rcases hinv with ⟨hc, hk⟩ | ⟨hc, hk, hu⟩
        · rw [if_pos hc, hk]
        · rw [if_neg hc, hu]
      have hmodlt : rep % d < d := Nat.mod_lt rep hd
      have hinv' :
          ((rep + 1) % d = 0
              ∧ (if rep % d = 0 then k + 1 else k) = (rep + 1) / d)
            ∨ ((rep + 1) % d ≠ 0
              ∧ (if rep % d = 0 then k + 1 else k) = (rep + 1) / d + 1
              ∧ (if rep % d = 0 then us k else u) = us ((rep + 1) / d)) := by
        by_cases hstep : rep % d + 1 = d
        · obtain ⟨hdiv, hmod⟩ := succ_div_mod_of_eq d rep hd hstep
          left
          refine ⟨hmod, ?_⟩
          rcases hinv with ⟨hc, hk⟩ | ⟨hc, hk, hu⟩
          · rw [if_pos hc, hk, hdiv]
          · rw [if_neg hc, hk, hdiv]
        · obtain ⟨hdiv, hmod⟩ := succ_div_mod_of_lt d rep hd (by omega)
          right
          refine ⟨by omega, ?_, ?_⟩
          · rcases hinv with ⟨hc, hk⟩ | ⟨hc, hk, hu⟩
            · rw [if_pos hc, hk, hdiv]
            · rw [if_neg hc, hk, hdiv]
          · rw [hu', hdiv]
      obtain ⟨ih1, ih2⟩ :=
        ih (rep + 1) (if rep % d = 0 then k + 1 else k)
          (if rep % d = 0 then us k else u) hinv'
      constructor
      · show (fun i => (if rep % d = 0 then us k else u) i ⟨rep % d, Nat.mod_lt rep hd⟩)
            :: (gen_rand_haar_states_go d hd us n (rep + 1)
                (if rep % d = 0 then k + 1 else k)
                (if rep % d = 0 then us k else u)).1
          = (List.range (n + 1)).map (fun t => fun i =>
              us ((rep + t) / d) i ⟨(rep + t) % d, Nat.mod_lt _ hd⟩)
        rw [List.range_succ_eq_map, List.map_cons, ih1, List.map_map, hu']
        refine congrArg₂ List.cons ?_ ?_
        · simp
        · refine List.map_congr_left fun t _ => ?_
          have harg : rep + 1 + t = rep + Nat.succ t := by omega
          simp only [Function.comp_apply, harg]
      · show (gen_rand_haar_states_go d hd us n (rep + 1)
              (if rep % d = 0 then k + 1 else k)
              (if rep % d = 0 then us k else u)).2
          = k + ((List.range (n + 1)).countP fun t => (rep + t) % d == 0)
        rw [ih2, countP_range_shift]
        by_cases h : rep % d = 0
        · rw [if_pos h, if_pos h]
          omega
        · rw [if_neg h, if_neg h]
          omega

end HaarStream

section ClaimC5

variable {K : Type} [Field K]

/-- C5: for `d ≥ 2` and any emission count, `gen_rand_haar_states` emits at
index `rep` the column `rep % d` of the `(rep / d)`-th fresh `rand_uni d`
call (so the cached unitary is regenerated exactly when `rep % d = 0`: the
initial cache `u₀` is irrelevant, and each emission in a cycle reuses the
unitary sampled at the start of that cycle), and the number of `rand_uni`
calls made over `reps` emissions is exactly `⌈reps / d⌉ = (reps + d - 1) / d`
— in particular one resample between emission indices `d - 1` and `d`.
Each `rand_uni` call consumes its own fresh draw stream `gs k`. -/
theorem gen_rand_haar_states_spec (d : ℕ) (hd2 : 2 ≤ d) (reps : ℕ)
    (qrF : Matrix (Fin d) (Fin d) K →
      Matrix (Fin d) (Fin d) K × Matrix (Fin d) (Fin d) K)
    (absF : K → K) (gs : ℕ → ℕ → K) (im : K) (fpow : ℚ → ℚ → K)
    (u₀ : Matrix (Fin d) (Fin d) K) :
    (gen_rand_haar_states d (by omega) reps
        (fun k => rand_uni d qrF absF (gs k) im fpow) u₀).1
      = (List.range reps).map (fun rep => fun i =>
          rand_uni d qrF absF (gs (rep / d)) im fpow i
            ⟨rep % d, Nat.mod_lt rep (by omega)⟩)
    ∧ (gen_rand_haar_states d (by omega) reps
        (fun k => rand_uni d qrF absF (gs k) im fpow) u₀).2
      = (reps + d - 1) / d := by
  have hd : 0 < d := by omega
  obtain ⟨h1, h2⟩ :=
    gen_rand_haar_states_go_spec d hd
      (fun k => rand_uni d qrF absF (gs k) im fpow) reps 0 0 u₀
      (Or.inl ⟨Nat.zero_mod d, (Nat.zero_div d).symm⟩)
  constructor
  · rw [show (gen_rand_haar_states d (by omega) reps
        (fun k => rand_uni d qrF absF (gs k) im fpow) u₀).1
      = (gen_rand_haar_states_go d hd
          (fun k => rand_uni d qrF absF (gs k) im fpow) reps 0 0 u₀).1 from rfl,
      h1]
    refine List.map_congr_left fun t _ => ?_
    have : 0 + t = t := by omega
    rw [this]
  · rw [show (gen_rand_haar_states d (by omega) reps
        (fun k => rand_uni d qrF absF (gs k) im fpow) u₀).2
      = (gen_rand_haar_states_go d hd
          (fun k => rand_uni d qrF absF (gs k) im fpow) reps 0 0 u₀).2 from rfl,
      h2, Nat.zero_add]
    have harg : (fun t => (0 + t) % d == 0) = fun t : ℕ => t % d == 0 := by
      funext t
      rw [Nat.zero_add]
    rw [harg, countP_range_mod_eq_ceil d hd]

/-- Witness for C5 at `d = 2`, `reps = 3`, over `ℚ`, with trivial
collaborators: three columns are emitted and the unitary is sampled twice. -/
theorem gen_rand_haar_states_spec_witness :
    (gen_rand_haar_states (K := ℚ) 2 (by norm_num) 3
        (fun k => rand_uni 2 (fun _ => (0, 0)) (fun z => z)
          ((fun _ _ => 0) k) 0 (fun _ _ => 1)) 0).1
      = (List.range 3).map (fun rep => fun i =>
          rand_uni (K := ℚ) 2 (fun _ => (0, 0)) (fun z => z)
            ((fun _ _ => 0) (rep / 2)) 0 (fun _ _ => 1) i
            ⟨rep % 2, Nat.mod_lt rep (by norm_num)⟩)
    ∧ (gen_rand_haar_states (K := ℚ) 2 (by norm_num) 3
        (fun k => rand_uni 2 (fun _ => (0, 0)) (fun z => z)
          ((fun _ _ => 0) k) 0 (fun _ _ => 1)) 0).2
      = (3 + 2 - 1) / 2 :=
  gen_rand_haar_states_spec 2 (by norm_num) 3 (fun _ => (0, 0)) (fun z => z)
    (fun _ _ => 0) 0 (fun _ _ => 1) 0

end ClaimC5

section ClaimC8

variable {K : Type} [Field K]

/-- C8: for `d ≥ 1`, a sparse call of `rand_matrix` with no density supplied
resolves the density to `min(0.5, 10/d)` (which is in `(0, 1]`, so the call
returns a matrix and not the collaborator's error), and only the selected
non-zero positions receive sampled values: every off-pattern entry is
exactly zero, while each on-pattern entry of the unscaled matrix is exactly
its Gaussian draw. -/
theorem rand_matrix_sparse_defaults (d : ℕ) (hd : 1 ≤ d) (scaled : Bool)
    (pat : ℕ → ℕ → Bool) (g : ℕ → K) (im : K) (fpow : ℚ → ℚ → K) :
    resolveDensity d true none = min (1/2) (10 / (d : ℚ))
    ∧ rand_matrix d scaled true none pat g im fpow
        = .ok (rand_matrixM d scaled true none pat g im fpow)
    ∧ (∀ i j, pat i.val j.val = false →
        rand_matrixM d scaled true none pat g im fpow i j = 0)
    ∧ (∀ i j, pat i.val j.val = true →
        rand_matrixM d false true none pat g im fpow i j = gauss g im d i.val j.val) := by
  have hd1 : (1 : ℚ) ≤ (d : ℚ) := by exact_mod_cast hd
  have hpos : (0 : ℚ) < 10 / (d : ℚ) := by positivity
  have hρ : resolveDensity d true none = min (1/2) (10 / (d : ℚ)) := rfl
  refine ⟨rfl, ?_, fun i j hpat => ?_, fun i j hpat => ?_⟩
  · refine rand_matrix_sparse_none_ok d scaled pat g im fpow (by omega) ?_
    rintro (h | h)
    · have h1 : (0 : ℚ) < min (1/2) (10 / (d : ℚ)) := lt_min (by norm_num) hpos
      linarith
    · have h1 : min (1/2) (10 / (d : ℚ)) ≤ 1/2 := min_le_left _ _
      linarith
  · cases scaled <;> simp [rand_matrixM, hpat]
  · simp [rand_matrixM, hpat]

/-- Witness for C8 at `d = 1` over `ℚ` with the empty sparsity pattern. -/
theorem rand_matrix_sparse_defaults_witness :
    resolveDensity 1 true none = min (1/2) (10 / ((1 : ℕ) : ℚ))
    ∧ rand_matrix (K := ℚ) 1 true true none (fun _ _ => false) (fun _ => 0) 0 (fun _ _ => 1)
        = .ok (rand_matrixM 1 true true none (fun _ _ => false) (fun _ => 0) 0 (fun _ _ => 1))
    ∧ (∀ i j, (fun _ _ : ℕ => false) i.val j.val = false →
        rand_matrixM (K := ℚ) 1 true true none (fun _ _ => false) (fun _ => 0) 0 (fun _ _ => 1) i j = 0)
    ∧ (∀ i j, (fun _ _ : ℕ => false) i.val j.val = true →
        rand_matrixM (K := ℚ) 1 false true none (fun _ _ => false) (fun _ => 0) 0 (fun _ _ => 1) i j
          = gauss (fun _ => 0) 0 1 i.val j.val) :=
  rand_matrix_sparse_defaults 1 (by norm_num) true (fun _ _ => false)
    (fun _ => 0) 0 (fun _ _ => 1)

end ClaimC8

section MixedState

variable {K : Type} [Field K] [StarRing K]

/-- Raw ket draws of `rand_ket` before normalisation:
`np.random.randn(d, 1) + 1.0j * np.random.randn(d, 1)` in dense mode, and
draws only at the pattern positions in sparse mode. -/
def rand_ketRaw (sparse : Bool) (pat : ℕ → Bool) (g : ℕ → K) (im : K) :
    ℕ → K :=
  if sparse then fun t => if pat t then g (2 * t) + im * g (2 * t + 1) else 0
  else fun t => g (2 * t) + im * g (2 * t + 1)

/-- The vector value of `rand_ket(d, ...)`: the normalisation collaborator
`nmlzF` (given the length `d`, it rescales to unit Euclidean norm — `nmlz`
is not part of this module) applied to the raw draws. -/
def rand_ketV (d : ℕ) (sparse : Bool) (pat : ℕ → Bool) (g : ℕ → K) (im : K)
    (nmlzF : ℕ → (ℕ → K) → (ℕ → K)) : ℕ → K :=
  nmlzF d (rand_ketRaw sparse pat g im)

/-- Embedding of `rand_ket(d, sparse, format, density)`: in sparse mode an
out-of-range density surfaces the sparse allocation collaborator's
`ValueError`, as in `rand_matrix`. -/
def rand_ket (d : ℕ) (sparse : Bool) (density : ℚ) (pat : ℕ → Bool)
    (g : ℕ → K) (im : K) (nmlzF : ℕ → (ℕ → K) → (ℕ → K)) :
    Except PyErr (ℕ → K) :=
  if sparse = true ∧ (density < 0 ∨ 1 < density) then .error .valueError
  else .ok (rand_ketV d sparse pat g im nmlzF)

/-- Modelled from the spec: the partial-trace collaborator at the call site
of `rand_mix` — given a joint pure state of the bipartition `(d0, d1)`
(entry `(i, j)` of the joint ket stored at index `i * d1 + j`), tracing out
the auxiliary subsystem (index 1 of the partition) leaves the `d0 × d0`
marginal `ρ(i, i') = ∑_j ψ(i,j) · conj(ψ(i',j))` of the kept subsystem. -/
def ptr (ψ : ℕ → K) (d0 d1 : ℕ) : Matrix (Fin d0) (Fin d0) K :=
  Matrix.of fun i i' =>
    ∑ j ∈ Finset.range d1, ψ (i.val * d1 + j) * star (ψ (i'.val * d1 + j))

/-- The auxiliary dimension drawn by `rand_mix`:
`np.random.randint(2, d + 1)` modelled on the integer draw `rInt`. -/
def mix_m (d rInt : ℕ) : ℕ := 2 + rInt % (d + 1 - 2)

/-- Embedding of `rand_mix(d)`: `np.random.randint(2, d + 1)` raises a
`ValueError` when the range `[2, d]` is empty (`2 ≥ d + 1`); otherwise a
ket of joint dimension `d * m` is sampled (densely, with the default density
`0.01` that `rand_ket` never consults in dense mode) and the auxiliary
subsystem is traced out. -/
def rand_mix (d : ℕ) (rInt : ℕ) (pat : ℕ → Bool) (g : ℕ → K) (im : K)
    (nmlzF : ℕ → (ℕ → K) → (ℕ → K)) :
    Except PyErr (Matrix (Fin d) (Fin d) K) :=
  if 2 < d + 1 then
    (rand_ket (d * mix_m d rInt) false (1/100) pat g im nmlzF).map fun ψ =>
      ptr ψ d (mix_m d rInt)
  else .error .valueError

lemma sum_range_mul {M : Type} [AddCommMonoid M] (f : ℕ → M) (d m : ℕ) :
    ∑ k ∈ Finset.range (d * m), f k
      = ∑ i ∈ Finset.range d, ∑ j ∈ Finset.range m, f (i * m + j) := by
  induction d with
  | zero => simp
  | succ d ih =>
      have h2 : ∑ j ∈ Finset.Ico (d * m) (d * m + m), f j
          = ∑ j ∈ Finset.range m, f (d * m + j) := by
        rw [Finset.sum_Ico_eq_sum_range]
        have hm : d * m + m - d * m = m := by omega
        rw [hm]
      calc ∑ k ∈ Finset.range ((d + 1) * m), f k
          = ∑ k ∈ Finset.Ico 0 (d * m + m), f k := by
            rw [Nat.succ_mul, Finset.range_eq_Ico]
        _ = (∑ k ∈ Finset.Ico 0 (d * m), f k)
              + ∑ k ∈ Finset.Ico (d * m) (d * m + m), f k :=
            (Finset.sum_Ico_consecutive f (Nat.zero_le (d * m))
              (Nat.le_add_right (d * m) m)).symm
        _ = (∑ i ∈ Finset.range d, ∑ j ∈ Finset.range m, f (i * m + j))
              + ∑ j ∈ Finset.range m, f (d * m + j) := by
            rw [← Finset.range_eq_Ico, ih, h2]
        _ = ∑ i ∈ Finset.range (d + 1), ∑ j ∈ Finset.range m, f (i * m + j) :=
            (Finset.sum_range_succ _ d).symm

lemma ptr_trace (ψ : ℕ → K) (d m : ℕ) :
    (ptr ψ d m).trace = ∑ k ∈ Finset.range (d * m), ψ k * star (ψ k) := by
  rw [sum_range_mul (fun k => ψ k * star (ψ k)) d m]
  rw [Matrix.trace, ← Fin.sum_univ_eq_sum_range]
  rfl

end MixedState

section ClaimC4

variable {K : Type} [Field K] [StarRing K]

/-- C4, amended to `d ≥ 2`: `rand_mix d` draws the auxiliary dimension
`m = 2 + rInt % (d - 1)` — a value in the inclusive range `[2, d]` —
samples a ket of joint dimension `d * m` via the ket builder, and returns
the partial trace over the auxiliary subsystem (index 1) of the `(d, m)`
bipartition: a `d × d` matrix whose trace is exactly 1 whenever the
normalised ket has unit norm (the hypothesis `hnorm` is the normalisation
collaborator's contract), regardless of the drawn `m`. -/
theorem rand_mix_spec (d : ℕ) (hd : 2 ≤ d) (rInt : ℕ) (pat : ℕ → Bool)
    (g : ℕ → K) (im : K) (nmlzF : ℕ → (ℕ → K) → (ℕ → K))
    (hnorm : ∑ k ∈ Finset.range (d * mix_m d rInt),
        rand_ketV (d * mix_m d rInt) false pat g im nmlzF k
          * star (rand_ketV (d * mix_m d rInt) false pat g im nmlzF k) = 1) :
    rand_mix d rInt pat g im nmlzF
      = .ok (ptr (rand_ketV (d * mix_m d rInt) false pat g im nmlzF) d
          (mix_m d rInt))
    ∧ 2 ≤ mix_m d rInt ∧ mix_m d rInt ≤ d
    ∧ (ptr (rand_ketV (d * mix_m d rInt) false pat g im nmlzF) d
        (mix_m d rInt)).trace = 1 := by
  have hmlt : rInt % (d + 1 - 2) < d + 1 - 2 := Nat.mod_lt rInt (by omega)
  refine ⟨?_, ?_, ?_, ?_⟩
  · unfold rand_mix
    rw [if_pos (by omega)]
    rfl
  · unfold mix_m
    omega
  · unfold mix_m
    omega
  · rw [ptr_trace]
    exact hnorm

/-- C4 counterexample: at `d = 1` (allowed by the claim's "for every
`d ≥ 1`") the auxiliary range `[2, d] = [2, 1]` is empty, so
`np.random.randint(2, 2)` raises a `ValueError`: no `1 × 1` unit-trace
matrix is returned. -/
theorem rand_mix_d_one_counterexample :
    rand_mix (K := ℚ) 1 0 (fun _ => false) (fun _ => 0) 0 (fun _ ψ => ψ)
      = .error .valueError := by
  unfold rand_mix
  rw [if_neg (by omega)]

/-- Witness for C4 at `d = 2`, `rInt = 0` (so `m = 2`), over `ℚ`, with a
normalisation collaborator sending everything to the unit ket `e₀`. -/
theorem rand_mix_spec_witness :
    rand_mix (K := ℚ) 2 0 (fun _ => false) (fun _ => 0) 0
        (fun _ _ => fun k => if k = 0 then 1 else 0)
      = .ok (ptr (K := ℚ)
          (rand_ketV (K := ℚ) (2 * mix_m 2 0) false (fun _ => false) (fun _ => 0) 0
            (fun _ _ => fun k => if k = 0 then 1 else 0)) 2 (mix_m 2 0))
    ∧ 2 ≤ mix_m 2 0 ∧ mix_m 2 0 ≤ 2
    ∧ (ptr (K := ℚ)
          (rand_ketV (K := ℚ) (2 * mix_m 2 0) false (fun _ => false) (fun _ => 0) 0
            (fun _ _ => fun k => if k = 0 then 1 else 0)) 2 (mix_m 2 0)).trace = 1 :=
  rand_mix_spec (K := ℚ) 2 (by norm_num) 0 (fun _ => false) (fun _ => 0) 0
    (fun _ _ => fun k => if k = 0 then 1 else 0)
    (by norm_num [mix_m, rand_ketV, Finset.sum_range_succ, star_trivial])

end ClaimC4

section ProductState

variable {K : Type} [Field K]

/-- Modelled from the spec: the binary tensor (Kronecker) product on state
vectors, entries in lexicographic order. -/
def kron2 (xs ys : List K) : List K :=
  xs.flatMap fun a => ys.map fun b => a * b

/-- Modelled from the spec: the tensor-product collaborator over an ordered
sequence of state vectors, combining left-to-right; the empty product is the
scalar 1. -/
def kron : List (List K) → List K
  | [] => [1]
  | xs :: rest => kron2 xs (kron rest)

/-- One draw of the generator `gen_rand_pure_qubits`: with `u, v` the two
uniform draws, `φ = 2π·u` and `θ = arccos(2·v − 1)`, the emitted qubit is
`[cos(θ/2), sin(θ/2)·e^{iφ}]` (the `qu` collaborator only attaches a type
tag, so the raw two-entry vector is kept).  `piC` models `np.pi`, `arccosF`,
`cosF`, `sinF` the numpy trigonometric collaborators and `expIF` the map
`x ↦ np.exp(1.0j · x)`. -/
def rand_pure_qubit (u v : K) (piC : K) (arccosF cosF sinF expIF : K → K) :
    List K :=
  [cosF (arccosF (2 * v - 1) / 2),
   sinF (arccosF (2 * v - 1) / 2) * expIF (2 * piC * u)]

/-- Embedding of `rand_product_state(n)`: the Kronecker product, in fixed
left-to-right order, of `n` independently drawn pure qubits. -/
def rand_product_state (n : ℕ) (u v : ℕ → K) (piC : K)
    (arccosF cosF sinF expIF : K → K) : List K :=
  kron ((List.range n).map fun i =>
    rand_pure_qubit (u i) (v i) piC arccosF cosF sinF expIF)

lemma kron2_length (xs ys : List K) :
    (kron2 xs ys).length = xs.length * ys.length := by
  induction xs with
  | nil => simp [kron2]
  | cons a l ih =>
      rw [kron2, List.flatMap_cons, List.length_append, List.length_map]
      rw [kron2] at ih
      rw [ih, List.length_cons, Nat.succ_mul, Nat.add_comm]

lemma kron_length (ls : List (List K)) :
    (kron ls).length = (ls.map List.length).prod := by
  induction ls with
  | nil => simp [kron]
  | cons xs rest ih =>
      rw [kron, kron2_length, ih, List.map_cons, List.prod_cons]

lemma sum_map_mul_left_normSq (a : ℂ) (ys : List ℂ) :
    (ys.map fun b => Complex.normSq a * Complex.normSq b).sum
      = Complex.normSq a * (ys.map Complex.normSq).sum := by
  induction ys with
  | nil => simp
  | cons c t iht =>
      rw [List.map_cons, List.sum_cons, List.map_cons, List.sum_cons, iht,
        mul_add]

lemma sumNormSq_kron2 (xs ys : List ℂ) :
    ((kron2 xs ys).map Complex.normSq).sum
      = (xs.map Complex.normSq).sum * (ys.map Complex.normSq).sum := by
  induction xs with
  | nil => simp [kron2]
  | cons a l ih =>
      rw [kron2, List.flatMap_cons, List.map_append, List.sum_append]
      rw [kron2] at ih
      rw [ih, List.map_cons, List.sum_cons, List.map_map]
      have hmap : (Complex.normSq ∘ fun b => a * b)
          = fun b => Complex.normSq a * Complex.normSq b := by
        funext b
        exact Complex.normSq_mul a b
      rw [hmap, sum_map_mul_left_normSq]
      ring

lemma sumNormSq_kron (ls : List (List ℂ)) :
    ((kron ls).map Complex.normSq).sum
      = (ls.map fun xs => (xs.map Complex.normSq).sum).prod := by
  induction ls with
  | nil => simp [kron]
  | cons xs rest ih =>
      rw [kron, sumNormSq_kron2, ih, List.map_cons, List.prod_cons]

lemma rand_pure_qubit_normSq (ur vr : ℝ) :
    ((rand_pure_qubit (((ur : ℝ)) : ℂ) (((vr : ℝ)) : ℂ) ((Real.pi : ℝ) : ℂ)
        (fun z => ((Real.arccos z.re : ℝ) : ℂ))
        (fun z => ((Real.cos z.re : ℝ) : ℂ))
        (fun z => ((Real.sin z.re : ℝ) : ℂ))
        (fun z => Complex.exp (Complex.I * z))).map Complex.normSq).sum = 1 := by
  have hv : (2 * ((vr : ℝ) : ℂ) - 1) = (((2 * vr - 1 : ℝ)) : ℂ) := by
    push_cast
    ring
  have hphi : (2 * ((Real.pi : ℝ) : ℂ) * ((ur : ℝ) : ℂ))
      = (((2 * Real.pi * ur : ℝ)) : ℂ) := by
    push_cast
    ring
  have hhalf : (((Real.arccos (2 * vr - 1) : ℝ)) : ℂ) / 2
      = (((Real.arccos (2 * vr - 1) / 2 : ℝ)) : ℂ) := by
    push_cast
    ring
  have hexp : Complex.normSq
      (Complex.exp (Complex.I * (((2 * Real.pi * ur : ℝ)) : ℂ))) = 1 := by
    rw [Complex.normSq_eq_abs, mul_comm Complex.I, Complex.abs_exp_ofReal_mul_I]
    norm_num
  rw [rand_pure_qubit, List.map_cons, List.map_cons, List.map_nil,
    List.sum_cons, List.sum_cons, List.sum_nil, hv, hphi]
  rw [Complex.ofReal_re, hhalf, Complex.ofReal_re]
  rw [Complex.normSq_mul, hexp, Complex.normSq_ofReal, Complex.normSq_ofReal]
  have hpyth := Real.sin_sq_add_cos_sq (Real.arccos (2 * vr - 1) / 2)
  nlinarith [hpyth]

end ProductState

section ClaimC7

/-- C7: `rand_product_state n` — with the trigonometric collaborators
instantiated by the real functions over `ℂ` and real uniform draw streams
`u, v` — is the left-to-right tensor product of the `n` sampled qubits
`[cos(θᵢ/2), sin(θᵢ/2)·e^{iφᵢ}]`, `φᵢ = 2π·uᵢ`, `θᵢ = arccos(2·vᵢ − 1)`
(definitional in the embedding), and it is a vector of length `2^n` with
unit Euclidean norm; for `n = 0` it is the scalar 1 (the empty-product
identity of the tensor collaborator). -/
theorem rand_product_state_spec (n : ℕ) (u v : ℕ → ℝ) :
    (rand_product_state n (fun i => ((u i : ℝ) : ℂ)) (fun i => ((v i : ℝ) : ℂ))
        ((Real.pi : ℝ) : ℂ) (fun z => ((Real.arccos z.re : ℝ) : ℂ))
        (fun z => ((Real.cos z.re : ℝ) : ℂ)) (fun z => ((Real.sin z.re : ℝ) : ℂ))
        (fun z => Complex.exp (Complex.I * z))).length = 2 ^ n
    ∧ ((rand_product_state n (fun i => ((u i : ℝ) : ℂ)) (fun i => ((v i : ℝ) : ℂ))
        ((Real.pi : ℝ) : ℂ) (fun z => ((Real.arccos z.re : ℝ) : ℂ))
        (fun z => ((Real.cos z.re : ℝ) : ℂ)) (fun z => ((Real.sin z.re : ℝ) : ℂ))
        (fun z => Complex.exp (Complex.I * z))).map Complex.normSq).sum = 1
    ∧ (n = 0 →
        rand_product_state n (fun i => ((u i : ℝ) : ℂ)) (fun i => ((v i : ℝ) : ℂ))
          ((Real.pi : ℝ) : ℂ) (fun z => ((Real.arccos z.re : ℝ) : ℂ))
          (fun z => ((Real.cos z.re : ℝ) : ℂ)) (fun z => ((Real.sin z.re : ℝ) : ℂ))
          (fun z => Complex.exp (Complex.I * z)) = [1]) := by
  refine ⟨?_, ?_, ?_⟩
  · rw [rand_product_state, kron_length, List.map_map]
    have hconst : (List.length ∘ fun i =>
        rand_pure_qubit (((u i : ℝ)) : ℂ) (((v i : ℝ)) : ℂ) ((Real.pi : ℝ) : ℂ)
          (fun z => ((Real.arccos z.re : ℝ) : ℂ))
          (fun z => ((Real.cos z.re : ℝ) : ℂ))
          (fun z => ((Real.sin z.re : ℝ) : ℂ))
          (fun z => Complex.exp (Complex.I * z)))
        = fun _ : ℕ => 2 := by
      funext i
      rfl
    rw [hconst, List.map_const', List.length_range, List.prod_replicate]
  · rw [rand_product_state, sumNormSq_kron, List.map_map]
    have hone : ((fun xs : List ℂ => (xs.map Complex.normSq).sum) ∘ fun i =>
        rand_pure_qubit (((u i : ℝ)) : ℂ) (((v i : ℝ)) : ℂ) ((Real.pi : ℝ) : ℂ)
          (fun z => ((Real.arccos z.re : ℝ) : ℂ))
          (fun z => ((Real.cos z.re : ℝ) : ℂ))
          (fun z => ((Real.sin z.re : ℝ) : ℂ))
          (fun z => Complex.exp (Complex.I * z)))
        = fun _ : ℕ => (1 : ℝ) := by
      funext i
      exact rand_pure_qubit_normSq (u i) (v i)
    rw [hone, List.map_const', List.length_range, List.prod_replicate, one_pow]
  · intro hn
    subst hn
    rfl

/-- Witness for C7 at `n = 0` with the zero draw streams. -/
theorem rand_product_state_spec_witness :
    (rand_product_state 0 (fun i => (((0 : ℕ → ℝ) i : ℝ) : ℂ))
        (fun i => (((0 : ℕ → ℝ) i : ℝ) : ℂ))
        ((Real.pi : ℝ) : ℂ) (fun z => ((Real.arccos z.re : ℝ) : ℂ))
        (fun z => ((Real.cos z.re : ℝ) : ℂ)) (fun z => ((Real.sin z.re : ℝ) : ℂ))
        (fun z => Complex.exp (Complex.I * z))).length = 2 ^ 0
    ∧ ((rand_product_state 0 (fun i => (((0 : ℕ → ℝ) i : ℝ) : ℂ))
        (fun i => (((0 : ℕ → ℝ) i : ℝ) : ℂ))
        ((Real.pi : ℝ) : ℂ) (fun z => ((Real.arccos z.re : ℝ) : ℂ))
        (fun z => ((Real.cos z.re : ℝ) : ℂ)) (fun z => ((Real.sin z.re : ℝ) : ℂ))
        (fun z => Complex.exp (Complex.I * z))).map Complex.normSq).sum = 1
    ∧ (0 = 0 →
        rand_product_state 0 (fun i => (((0 : ℕ → ℝ) i : ℝ) : ℂ))
          (fun i => (((0 : ℕ → ℝ) i : ℝ) : ℂ))
          ((Real.pi : ℝ) : ℂ) (fun z => ((Real.arccos z.re : ℝ) : ℂ))
          (fun z => ((Real.cos z.re : ℝ) : ℂ)) (fun z => ((Real.sin z.re : ℝ) : ℂ))
          (fun z => Complex.exp (Complex.I * z)) = [1]) :=
  rand_product_state_spec 0 (0 : ℕ → ℝ) (0 : ℕ → ℝ)

end ClaimC7
